import Mathlib

/-!
A shallow embedding of `recommender_system.py` (Zepto case study,
`Customer_insights_and_personalization/recommendation/personalized_recommendation`).

Modelling conventions:
* a dataset row (after `dropna`) is a `Row`; categorical values are strings,
  numeric values are rationals;
* `LabelEncoder.fit_transform` assigns to each categorical value its index in the
  sorted list of distinct values (`classes`), exactly as `sklearn` does; sorting of
  strings is by code points (`strLe`), matching numpy's sort on `str`;
* `cosine_similarity` is the real number `⟨u,v⟩ / (‖u‖ ‖v‖)`; `sklearn` maps rows of
  zero norm to the zero vector before taking the product, which coincides with
  Lean's `x / 0 = 0` convention, so no special case is needed;
* `Series.sort_values(ascending=False)` is modelled as a stable sort with the
  boolean comparator `simGE`; the lemma `simGE_true_iff` proves that the comparator
  decides the ordering of the real cosine-similarity values;
* Python's `set` has an unspecified iteration order (string hashing is salted), so
  `list(set)` is modelled by an explicit parameter `setOrd` applied to the list of
  distinct elements in insertion order; theorems either hold for every permutation
  or pick one concrete legitimate order;
* operations that raise in Python return `none` here: `df[pid]` followed by
  `sort_values()` raises a `TypeError` when `pid` labels several columns of the
  similarity frame (duplicated index), and `list.remove` raises `ValueError` when
  the query product is not among the selected top entries.
-/

namespace Zepto

/-- One (complete, post-`dropna`) row of `updated_dataset.csv`, restricted to the
columns the script reads. -/
structure Row where
  Customer_ID : String
  Product_ID : String
  Gender : String
  City : String
  Product_Category : String
  Payment_Method : String
  Age_Group : String
  Loyalty_Tier : String
  Price : ℚ
  Competitor_Price : ℚ
  Ad_Click_Through_Rate : ℚ
  Browsing_Time_mins : ℚ
  Voice_Search_Count : ℚ
  Visual_Search_Count : ℚ
deriving DecidableEq, Inhabited

/-- Code-point lexicographic comparison of char lists (the order numpy/Python use
on strings). -/
def lexLe : List Char → List Char → Bool
  | [], _ => true
  | _ :: _, [] => false
  | a :: as, b :: bs =>
    if a.toNat < b.toNat then true
    else if b.toNat < a.toNat then false
    else lexLe as bs

/-- Lexicographic order on strings, by code points. -/
def strLe (a b : String) : Bool := lexLe a.data b.data

/-- `strLe` as a `Prop`-valued relation, for `List.insertionSort`. -/
def strLeP (a b : String) : Prop := strLe a b = true

instance : DecidableRel strLeP := fun a b => instDecidableEqBool _ _

/-- Remove duplicates keeping the first occurrence of each element
(`pandas.drop_duplicates(keep='first')`): later occurrences of an already-seen
element are filtered out. -/
def dedupFirst {α : Type} [DecidableEq α] : List α → List α
  | [] => []
  | a :: l => a :: (dedupFirst l).filter (fun b => decide (b ≠ a))

/-- Remove duplicates by a key, keeping the first occurrence of each key
(`pandas.drop_duplicates(subset=[...], keep='first')`). -/
def dedupFirstOn {α β : Type} [DecidableEq β] (key : α → β) : List α → List α
  | [] => []
  | a :: l => a :: (dedupFirstOn key l).filter (fun b => decide (key b ≠ key a))

/-- The classes of a fitted `LabelEncoder`: the distinct values of the column, in
sorted order (`numpy.unique`). -/
def classes (vals : List String) : List String :=
  List.insertionSort strLeP (dedupFirst vals)

/-- `LabelEncoder.transform` on a single value: its index among the classes. -/
def labelEncode (cl : List String) (v : String) : ℕ := cl.indexOf v

/-- `LabelEncoder.inverse_transform` on a single code. -/
def labelDecode (cl : List String) (i : ℕ) : String := cl.getD i ""

/-- The feature vector of a product: the encoded `Product_Category` followed by the
six numeric attributes, in the column order of `_create_product_features`. -/
structure FVec where
  cat : ℚ
  price : ℚ
  comp : ℚ
  ctr : ℚ
  btime : ℚ
  voice : ℚ
  visual : ℚ
deriving DecidableEq, Inhabited

/-- A row of the product-feature table: the index label (`Product_ID`) together
with the feature vector. -/
structure PRow where
  pid : String
  f : FVec
deriving DecidableEq, Inhabited

/-- The classes of the `Product_Category` encoder fitted on the whole dataset. -/
def catClasses (db : List Row) : List String :=
  classes (db.map (·.Product_Category))

/-- Projection of a dataset row onto the feature columns, with the category
already label-encoded (the script encodes the dataframe in place before building
the product table). -/
def projRow (cl : List String) (r : Row) : PRow :=
  ⟨r.Product_ID,
    ⟨(labelEncode cl r.Product_Category : ℚ), r.Price, r.Competitor_Price,
      r.Ad_Click_Through_Rate, r.Browsing_Time_mins, r.Voice_Search_Count,
      r.Visual_Search_Count⟩⟩

/-- The product table before normalization:
`df[[...]].drop_duplicates().set_index('Product_ID')`. Duplicates are dropped on
the whole projected row, so one `Product_ID` can label several rows. -/
def rawTable (db : List Row) : List PRow :=
  dedupFirst (db.map (projRow (catClasses db)))

/-- Minimum of a list of rationals (`Series.min`); `0` on the empty list. -/
def minQ : List ℚ → ℚ
  | [] => 0
  | a :: l => l.foldl min a

/-- Maximum of a list of rationals (`Series.max`); `0` on the empty list. -/
def maxQ : List ℚ → ℚ
  | [] => 0
  | a :: l => l.foldl max a

/-- Min-max scaling of one value: `(x - x.min()) / (x.max() - x.min())`. -/
def normVal (mn mx x : ℚ) : ℚ := (x - mn) / (mx - mn)

/-- Min-max scaling of one value of one numeric column of the product table. -/
def normColumn (get : FVec → ℚ) (t : List PRow) (x : ℚ) : ℚ :=
  normVal (minQ (t.map (fun e => get e.f))) (maxQ (t.map (fun e => get e.f))) x

/-- The product-feature table of `_create_product_features`: the six numeric
columns are min-max scaled; the encoded category column is left untouched. -/
def productFeatures (db : List Row) : List PRow :=
  let t := rawTable db
  t.map (fun e =>
    ⟨e.pid,
      ⟨e.f.cat,
        normColumn FVec.price t e.f.price,
        normColumn FVec.comp t e.f.comp,
        normColumn FVec.ctr t e.f.ctr,
        normColumn FVec.btime t e.f.btime,
        normColumn FVec.voice t e.f.voice,
        normColumn FVec.visual t e.f.visual⟩⟩)

/-- The index of the product-feature table (also both axes of the similarity
frame built in `_calculate_similarity`). -/
def simIndex (db : List Row) : List String := (productFeatures db).map (·.pid)

/-- Dot product of two feature vectors. -/
def dotF (u v : FVec) : ℚ :=
  u.cat * v.cat + u.price * v.price + u.comp * v.comp + u.ctr * v.ctr +
    u.btime * v.btime + u.voice * v.voice + u.visual * v.visual

/-- Cosine similarity of two feature vectors, as a real number.
`sklearn.cosine_similarity` replaces rows of zero norm by zero vectors, which
agrees with the `x / 0 = 0` convention used here. -/
noncomputable def cosSim (u v : FVec) : ℝ :=
  ((dotF u v : ℚ) : ℝ) /
    (Real.sqrt ((dotF u u : ℚ) : ℝ) * Real.sqrt ((dotF v v : ℚ) : ℝ))

/-- The similarity matrix of `_calculate_similarity`, as a list of rows; both axes
are indexed by `simIndex`. -/
noncomputable def simMatrix (db : List Row) : List (List ℝ) :=
  (productFeatures db).map (fun a =>
    (productFeatures db).map (fun b => cosSim a.f b.f))

/-- The real value `d / √s` (a cosine similarity up to the positive factor
`1 / ‖query‖`; the factor does not change the sort order of a column). -/
noncomputable def simVal (d s : ℚ) : ℝ := (d : ℝ) / Real.sqrt (s : ℝ)

/-- Sign of `simVal d s` (`s ≤ 0` gives `√s = 0` and hence value `0`). -/
def simSign (d s : ℚ) : ℤ :=
  if s ≤ 0 then 0 else if 0 < d then 1 else if d < 0 then -1 else 0

/-- Boolean comparator deciding `simVal d₂ s₂ ≤ simVal d₁ s₁` by rational
arithmetic only (see `simGE_true_iff`); used to model the descending
`sort_values` on a column of the similarity frame. -/
def simGE (d₁ s₁ d₂ s₂ : ℚ) : Bool :=
  if simSign d₁ s₁ = simSign d₂ s₂ then
    if simSign d₁ s₁ = 1 then decide (d₂ ^ 2 * s₁ ≤ d₁ ^ 2 * s₂)
    else if simSign d₁ s₁ = -1 then decide (d₁ ^ 2 * s₂ ≤ d₂ ^ 2 * s₁)
    else true
  else decide (simSign d₂ s₂ < simSign d₁ s₁)

/-- One entry of the similarity column of a query product: the index label, the
dot product of the query vector with this product's vector, and this product's
squared norm. The column value is `d / (‖query‖ √s)`. -/
structure SimEntry where
  pid : String
  d : ℚ
  s : ℚ
deriving DecidableEq, Inhabited

/-- Descending-similarity comparison of two column entries. -/
def entGE (a b : SimEntry) : Prop := simGE a.d a.s b.d b.s = true

instance : DecidableRel entGE := fun a b => instDecidableEqBool _ _

/-- The similarity column `product_similarity_df[product_id]` for the query row
`q`, with each value represented by the pair `(d, s)`. -/
def simColumn (db : List Row) (q : PRow) : List SimEntry :=
  (productFeatures db).map (fun e => ⟨e.pid, dotF q.f e.f, dotF e.f e.f⟩)

/-- `RecommenderSystem.recommend_products`: sort the query's similarity column in
descending order, keep the first `num_recommendations + 1` labels, and remove the
query label. `none` models the exceptions: a duplicated (or absent) label makes
`df[product_id].sort_values()` raise, and `list.remove` raises when the query
label is not among the kept entries. -/
def recommend_products (db : List Row) (product_id : String)
    (num_recommendations : ℕ) : Option (List String) :=
  match (productFeatures db).filter (fun e => e.pid == product_id) with
  | [q] =>
    let sorted := List.insertionSort entGE (simColumn db q)
    let top := (sorted.take (num_recommendations + 1)).map (·.pid)
    if product_id ∈ top then some (top.erase product_id) else none
  | _ => none

/-- The per-purchase union loop of `recommend_products_for_customer`: the
concatenation, in purchase order, of the recommendation lists (set insertion
order); `none` if any call raises. -/
def unionRecs (db : List Row) (num_recommendations : ℕ) :
    List String → Option (List String)
  | [] => some []
  | p :: ps =>
    match recommend_products db p num_recommendations,
        unionRecs db num_recommendations ps with
    | some l, some rest => some (l ++ rest)
    | _, _ => none

/-- The classes of the `City` encoder. -/
def cityClasses (db : List Row) : List String := classes (db.map (·.City))

/-- The classes of the `Age_Group` encoder. -/
def ageClasses (db : List Row) : List String := classes (db.map (·.Age_Group))

/-- The category of the first dataset row carrying a product identifier (the row
`drop_duplicates(subset=['Product_ID'])` keeps). -/
def prodCategory (db : List Row) (pid : String) : String :=
  ((db.find? (fun r => decide (r.Product_ID = pid))).map (·.Product_Category)).getD ""

/-- `RecommenderSystem.recommend_products_for_customer`. `setOrd` is the
iteration order of the Python `set` of recommended products: it is applied to the
distinct products in insertion order and is an arbitrary permutation (string
hashing is unspecified). The dataframe stores encoded categoricals, so the city,
age group and categories are returned through `inverse_transform`; here the
stored code is recomputed as `labelEncode` of the original value. -/
def recommend_products_for_customer (db : List Row)
    (setOrd : List String → List String) (customer_id : String)
    (num_recommendations : ℕ) :
    Option (List String × List String × String × String) :=
  match db.filter (fun r => r.Customer_ID == customer_id) with
  | [] => some ([], [], "Unknown", "Unknown")
  | r0 :: rest =>
    let customer_city :=
      labelDecode (cityClasses db) (labelEncode (cityClasses db) r0.City)
    let customer_age_group :=
      labelDecode (ageClasses db) (labelEncode (ageClasses db) r0.Age_Group)
    match unionRecs db num_recommendations ((r0 :: rest).map (·.Product_ID)) with
    | none => none
    | some u =>
      let recs := (setOrd (dedupFirst u)).take num_recommendations
      let pairs := dedupFirstOn (fun p => p.1)
        ((db.filter (fun r => decide (r.Product_ID ∈ recs))).map
          (fun r => (r.Product_ID, r.Product_Category)))
      let cats := pairs.map (fun p =>
        labelDecode (catClasses db) (labelEncode (catClasses db) p.2))
      some (recs, cats, customer_city, customer_age_group)

/-! ### Concrete datasets

Small datasets used to instantiate the theorems and to refute claims; the
categorical columns the recommender does not use carry fixed filler values. -/

/-- Build a dataset row from the fields the recommender reads. -/
def mkRow (cid pid cat city ag : String) (price comp ctr bt vc vs : ℚ) : Row :=
  ⟨cid, pid, "M", city, cat, "Card", ag, "Gold", price, comp, ctr, bt, vc, vs⟩

/-- The identifier `P1` labels two distinct feature rows (same product bought at
two prices), so the feature table keeps both under the same index label. -/
def dbDupPid : List Row :=
  [mkRow "CU1" "P1" "A" "D" "18-25" 10 1 1 1 1 1,
   mkRow "CU1" "P1" "A" "D" "18-25" 20 2 2 2 2 2,
   mkRow "CU2" "P2" "A" "D" "18-25" 0 0 0 0 0 0]

/-- Product `P1` sits at the per-column minima, hence its normalized feature
vector is the zero vector. -/
def dbZeroVec : List Row :=
  [mkRow "CU1" "P1" "A" "D" "18-25" 0 0 0 0 0 0,
   mkRow "CU2" "P2" "A" "D" "18-25" 7 7 7 7 7 7]

/-- Three products with three distinct categories, so the encoded category codes
are `0`, `1` and `2`. -/
def dbThreeCats : List Row :=
  [mkRow "CU1" "P1" "A" "D" "18-25" 1 1 1 1 1 1,
   mkRow "CU2" "P2" "B" "D" "18-25" 2 2 2 2 2 2,
   mkRow "CU3" "P3" "C" "D" "18-25" 3 3 3 3 3 3]

/-- Customer `CU1` bought `P1`; `P2` has the same feature vector as `P1` and
`P3` is orthogonal to it. -/
def dbParallel : List Row :=
  [mkRow "CU1" "P1" "A" "D" "18-25" 10 0 0 0 0 0,
   mkRow "CU2" "P2" "A" "D" "18-25" 10 0 0 0 0 0,
   mkRow "CU2" "P3" "A" "D" "18-25" 0 7 2 3 4 5]

/-- Like `dbParallel`, but with two categories and the row of `P3` before the
row of `P2`, so the dataset order of the recommended products differs from the
order of the recommendation list. -/
def dbTwoCats : List Row :=
  [mkRow "CU1" "P1" "X" "D" "18-25" 10 0 0 0 0 0,
   mkRow "CU2" "P3" "Y" "D" "18-25" 0 7 2 3 4 5,
   mkRow "CU2" "P2" "X" "D" "18-25" 10 0 0 0 0 0]

/-! ### Basic facts about the dot product and cosine similarity -/

theorem dotF_comm (u v : FVec) : dotF u v = dotF v u := by
  unfold dotF; ring

theorem dotF_self_nonneg (u : FVec) : 0 ≤ dotF u u := by
  unfold dotF; ring_nf; positivity

set_option maxHeartbeats 1000000 in
/-- Cauchy–Schwarz for seven-dimensional feature vectors, via the Lagrange
identity. -/
theorem dotF_sq_le (u v : FVec) : dotF u v ^ 2 ≤ dotF u u * dotF v v := by
  have key : dotF u u * dotF v v - dotF u v ^ 2 =
      (u.cat * v.price - u.price * v.cat) ^ 2 +
      (u.cat * v.comp - u.comp * v.cat) ^ 2 +
      (u.cat * v.ctr - u.ctr * v.cat) ^ 2 +
      (u.cat * v.btime - u.btime * v.cat) ^ 2 +
      (u.cat * v.voice - u.voice * v.cat) ^ 2 +
      (u.cat * v.visual - u.visual * v.cat) ^ 2 +
      (u.price * v.comp - u.comp * v.price) ^ 2 +
      (u.price * v.ctr - u.ctr * v.price) ^ 2 +
      (u.price * v.btime - u.btime * v.price) ^ 2 +
      (u.price * v.voice - u.voice * v.price) ^ 2 +
      (u.price * v.visual - u.visual * v.price) ^ 2 +
      (u.comp * v.ctr - u.ctr * v.comp) ^ 2 +
      (u.comp * v.btime - u.btime * v.comp) ^ 2 +
      (u.comp * v.voice - u.voice * v.comp) ^ 2 +
      (u.comp * v.visual - u.visual * v.comp) ^ 2 +
      (u.ctr * v.btime - u.btime * v.ctr) ^ 2 +
      (u.ctr * v.voice - u.voice * v.ctr) ^ 2 +
      (u.ctr * v.visual - u.visual * v.ctr) ^ 2 +
      (u.btime * v.voice - u.voice * v.btime) ^ 2 +
      (u.btime * v.visual - u.visual * v.btime) ^ 2 +
      (u.voice * v.visual - u.visual * v.voice) ^ 2 := by
    unfold dotF; ring
  linarith [key, sq_nonneg (u.cat * v.price - u.price * v.cat),
    sq_nonneg (u.cat * v.comp - u.comp * v.cat),
    sq_nonneg (u.cat * v.ctr - u.ctr * v.cat),
    sq_nonneg (u.cat * v.btime - u.btime * v.cat),
    sq_nonneg (u.cat * v.voice - u.voice * v.cat),
    sq_nonneg (u.cat * v.visual - u.visual * v.cat),
    sq_nonneg (u.price * v.comp - u.comp * v.price),
    sq_nonneg (u.price * v.ctr - u.ctr * v.price),
    sq_nonneg (u.price * v.btime - u.btime * v.price),
    sq_nonneg (u.price * v.voice - u.voice * v.price),
    sq_nonneg (u.price * v.visual - u.visual * v.price),
    sq_nonneg (u.comp * v.ctr - u.ctr * v.comp),
    sq_nonneg (u.comp * v.btime - u.btime * v.comp),
    sq_nonneg (u.comp * v.voice - u.voice * v.comp),
    sq_nonneg (u.comp * v.visual - u.visual * v.comp),
    sq_nonneg (u.ctr * v.btime - u.btime * v.ctr),
    sq_nonneg (u.ctr * v.voice - u.voice * v.ctr),
    sq_nonneg (u.ctr * v.visual - u.visual * v.ctr),
    sq_nonneg (u.btime * v.voice - u.voice * v.btime),
    sq_nonneg (u.btime * v.visual - u.visual * v.btime),
    sq_nonneg (u.voice * v.visual - u.visual * v.voice)]

theorem cosSim_comm (u v : FVec) : cosSim u v = cosSim v u := by
  unfold cosSim; rw [dotF_comm u v, mul_comm]

/-- Self-similarity is `1` for vectors of nonzero norm. -/
theorem cosSim_self (u : FVec) (h : dotF u u ≠ 0) : cosSim u u = 1 := by
  unfold cosSim
  rw [Real.mul_self_sqrt (by exact_mod_cast dotF_self_nonneg u)]
  rw [div_self (by exact_mod_cast h)]

/-- Self-similarity of a zero-norm vector is `0` (as in `sklearn`, which maps
zero rows to zero before the product). -/
theorem cosSim_self_zero (u : FVec) (h : dotF u u = 0) : cosSim u u = 0 := by
  unfold cosSim
  rw [h]
  norm_num

theorem abs_cosSim_le_one (u v : FVec) : |cosSim u v| ≤ 1 := by
  unfold cosSim
  set a : ℝ := ((dotF u v : ℚ) : ℝ) with ha
  set su : ℝ := ((dotF u u : ℚ) : ℝ) with hsu
  set sv : ℝ := ((dotF v v : ℚ) : ℝ) with hsv
  have hsu0 : 0 ≤ su := by rw [hsu]; exact_mod_cast dotF_self_nonneg u
  have hsv0 : 0 ≤ sv := by rw [hsv]; exact_mod_cast dotF_self_nonneg v
  rcases eq_or_lt_of_le (mul_nonneg (Real.sqrt_nonneg su) (Real.sqrt_nonneg sv))
    with hz | hp
  · rw [← hz, div_zero]; norm_num
  · rw [abs_div, abs_of_pos hp, div_le_one hp]
    have habs : |a| ≤ Real.sqrt (su * sv) := by
      have h1 : a ^ 2 ≤ su * sv := by
        rw [ha, hsu, hsv]
        exact_mod_cast dotF_sq_le u v
      calc |a| = Real.sqrt (a ^ 2) := by rw [Real.sqrt_sq_eq_abs]
        _ ≤ Real.sqrt (su * sv) := Real.sqrt_le_sqrt h1
    calc |a| ≤ Real.sqrt (su * sv) := habs
      _ = Real.sqrt su * Real.sqrt sv := Real.sqrt_mul hsu0 sv

theorem cosSim_le_one (u v : FVec) : cosSim u v ≤ 1 :=
  (abs_le.1 (abs_cosSim_le_one u v)).2

theorem neg_one_le_cosSim (u v : FVec) : -1 ≤ cosSim u v :=
  (abs_le.1 (abs_cosSim_le_one u v)).1

/-! ### Minimum, maximum and min-max scaling -/

theorem foldl_min_le_all (l : List ℚ) (a : ℚ) :
    l.foldl min a ≤ a ∧ ∀ x ∈ l, l.foldl min a ≤ x := by
  induction l generalizing a with
  | nil => exact ⟨le_refl _, by simp⟩
  | cons b l ih =>
    obtain ⟨h1, h2⟩ := ih (min a b)
    refine ⟨h1.trans (min_le_left _ _), ?_⟩
    intro x hx
    rcases List.mem_cons.1 hx with rfl | hx
    · exact h1.trans (min_le_right _ _)
    · exact h2 x hx

theorem all_le_foldl_max (l : List ℚ) (a : ℚ) :
    a ≤ l.foldl max a ∧ ∀ x ∈ l, x ≤ l.foldl max a := by
  induction l generalizing a with
  | nil => exact ⟨le_refl _, by simp⟩
  | cons b l ih =>
    obtain ⟨h1, h2⟩ := ih (max a b)
    refine ⟨(le_max_left _ _).trans h1, ?_⟩
    intro x hx
    rcases List.mem_cons.1 hx with rfl | hx
    · exact (le_max_right _ _).trans h1
    · exact h2 x hx

theorem minQ_le_of_mem {l : List ℚ} {x : ℚ} (h : x ∈ l) : minQ l ≤ x := by
  cases l with
  | nil => cases h
  | cons a l =>
    rcases List.mem_cons.1 h with rfl | hx
    · exact (foldl_min_le_all l x).1
    · exact (foldl_min_le_all l a).2 x hx

theorem le_maxQ_of_mem {l : List ℚ} {x : ℚ} (h : x ∈ l) : x ≤ maxQ l := by
  cases l with
  | nil => cases h
  | cons a l =>
    rcases List.mem_cons.1 h with rfl | hx
    · exact (all_le_foldl_max l x).1
    · exact (all_le_foldl_max l a).2 x hx

theorem normVal_mem_unit {mn mx x : ℚ} (h1 : mn ≤ x) (h2 : x ≤ mx)
    (h : mn < mx) : 0 ≤ normVal mn mx x ∧ normVal mn mx x ≤ 1 := by
  unfold normVal
  constructor
  · exact div_nonneg (by linarith) (by linarith)
  · rw [div_le_one (by linarith)]
    linarith

/-! ### The boolean comparator decides the real similarity order -/

theorem simVal_of_nonpos {d s : ℚ} (h : s ≤ 0) : simVal d s = 0 := by
  unfold simVal
  rw [Real.sqrt_eq_zero'.2 (by exact_mod_cast h), div_zero]

theorem simVal_pos {d s : ℚ} (hs : 0 < s) (hd : 0 < d) : 0 < simVal d s :=
  div_pos (by exact_mod_cast hd) (Real.sqrt_pos.2 (by exact_mod_cast hs))

theorem simVal_neg {d s : ℚ} (hs : 0 < s) (hd : d < 0) : simVal d s < 0 :=
  div_neg_of_neg_of_pos (by exact_mod_cast hd) (Real.sqrt_pos.2 (by exact_mod_cast hs))

theorem simSign_cases (d s : ℚ) :
    simSign d s = -1 ∨ simSign d s = 0 ∨ simSign d s = 1 := by
  unfold simSign; split_ifs <;> simp

theorem simSign_spec (d s : ℚ) :
    (simSign d s = 1 → 0 < simVal d s) ∧
    (simSign d s = 0 → simVal d s = 0) ∧
    (simSign d s = -1 → simVal d s < 0) := by
  unfold simSign
  split_ifs with h1 h2 h3
  · exact ⟨fun h => absurd h (by decide), fun _ => simVal_of_nonpos h1,
      fun h => absurd h (by decide)⟩
  · exact ⟨fun _ => simVal_pos (not_le.1 h1) h2, fun h => absurd h (by decide),
      fun h => absurd h (by decide)⟩
  · exact ⟨fun h => absurd h (by decide), fun h => absurd h (by decide),
      fun _ => simVal_neg (not_le.1 h1) h3⟩
  · have hd : d = 0 := le_antisymm (not_lt.1 h2) (not_lt.1 h3)
    subst hd
    exact ⟨fun h => absurd h (by decide), fun _ => by unfold simVal; simp,
      fun h => absurd h (by decide)⟩

theorem of_simSign_eq_one {d s : ℚ} (h : simSign d s = 1) : 0 < s ∧ 0 < d := by
  unfold simSign at h
  split_ifs at h with h1 h2 h3 <;>
    first
      | exact ⟨not_le.1 h1, h2⟩
      | exact absurd h (by decide)

theorem of_simSign_eq_negone {d s : ℚ} (h : simSign d s = -1) : 0 < s ∧ d < 0 := by
  unfold simSign at h
  split_ifs at h with h1 h2 h3 <;>
    first
      | exact ⟨not_le.1 h1, h3⟩
      | exact absurd h (by decide)

theorem simVal_lt_of_sign_lt {d₁ s₁ d₂ s₂ : ℚ}
    (h : simSign d₁ s₁ < simSign d₂ s₂) : simVal d₁ s₁ < simVal d₂ s₂ := by
  obtain ⟨p1, z1, n1⟩ := simSign_spec d₁ s₁
  obtain ⟨p2, z2, n2⟩ := simSign_spec d₂ s₂
  rcases simSign_cases d₁ s₁ with h1 | h1 | h1 <;>
    rcases simSign_cases d₂ s₂ with h2 | h2 | h2 <;>
      rw [h1, h2] at h
  · exact absurd h (by decide)
  · have := n1 h1; have := z2 h2; linarith
  · have := n1 h1; have := p2 h2; linarith
  · exact absurd h (by decide)
  · exact absurd h (by decide)
  · have := z1 h1; have := p2 h2; linarith
  · exact absurd h (by decide)
  · exact absurd h (by decide)
  · exact absurd h (by decide)

/-- The comparator `simGE` decides the order of the real column values: it
returns `true` exactly when `d₁ / √s₁` is at least `d₂ / √s₂`. -/
theorem simGE_true_iff (d₁ s₁ d₂ s₂ : ℚ) :
    simGE d₁ s₁ d₂ s₂ = true ↔ simVal d₂ s₂ ≤ simVal d₁ s₁ := by
  unfold simGE
  split_ifs with h1 h2 h3
  · -- both signs `1`: both values positive, compare by squares
    obtain ⟨hs1, hd1⟩ := of_simSign_eq_one h2
    obtain ⟨hs2, hd2⟩ := of_simSign_eq_one (h1.symm.trans h2)
    rw [decide_eq_true_eq]
    have r1 : (0:ℝ) < Real.sqrt ((s₁:ℚ):ℝ) :=
      Real.sqrt_pos.2 (by exact_mod_cast hs1)
    have r2 : (0:ℝ) < Real.sqrt ((s₂:ℚ):ℝ) :=
      Real.sqrt_pos.2 (by exact_mod_cast hs2)
    unfold simVal
    rw [div_le_div_iff r2 r1]
    rw [← pow_le_pow_iff_left (a := ((d₂:ℚ):ℝ) * Real.sqrt ((s₁:ℚ):ℝ))
        (mul_nonneg (by exact_mod_cast hd2.le) r1.le)
        (mul_nonneg (by exact_mod_cast hd1.le) r2.le) two_ne_zero]
    rw [mul_pow, mul_pow, Real.sq_sqrt (by exact_mod_cast hs1.le),
      Real.sq_sqrt (by exact_mod_cast hs2.le)]
    constructor
    · intro h; exact_mod_cast h
    · intro h; exact_mod_cast h
  · -- both signs `-1`: both values negative, compare by squares, reversed
    obtain ⟨hs1, hd1⟩ := of_simSign_eq_negone h3
    obtain ⟨hs2, hd2⟩ := of_simSign_eq_negone (h1.symm.trans h3)
    rw [decide_eq_true_eq]
    have r1 : (0:ℝ) < Real.sqrt (s₁:ℝ) := Real.sqrt_pos.2 (by exact_mod_cast hs1)
    have r2 : (0:ℝ) < Real.sqrt (s₂:ℝ) := Real.sqrt_pos.2 (by exact_mod_cast hs2)
    unfold simVal
    rw [div_le_div_iff r2 r1]
    have flip : ((d₂:ℝ) * Real.sqrt (s₁:ℝ) ≤ (d₁:ℝ) * Real.sqrt (s₂:ℝ)) ↔
        (-(d₁:ℝ)) * Real.sqrt (s₂:ℝ) ≤ (-(d₂:ℝ)) * Real.sqrt (s₁:ℝ) := by
      rw [neg_mul, neg_mul]
      constructor <;> intro h <;> linarith
    rw [flip,
      ← pow_le_pow_iff_left (mul_nonneg (neg_nonneg.2 (by exact_mod_cast hd1.le)) r2.le)
        (mul_nonneg (neg_nonneg.2 (by exact_mod_cast hd2.le)) r1.le) two_ne_zero,
      mul_pow, mul_pow, Real.sq_sqrt (by exact_mod_cast hs2.le),
      Real.sq_sqrt (by exact_mod_cast hs1.le), neg_sq, neg_sq]
    constructor
    · intro h; exact_mod_cast h
    · intro h; exact_mod_cast h
  · -- both signs `0`: both values vanish
    have hz1 : simVal d₁ s₁ = 0 := by
      rcases simSign_cases d₁ s₁ with h | h | h
      · exact absurd h h3
      · exact (simSign_spec d₁ s₁).2.1 h
      · exact absurd h h2
    have hz2 : simVal d₂ s₂ = 0 := by
      rcases simSign_cases d₂ s₂ with h | h | h
      · exact absurd (h1.trans h) h3
      · exact (simSign_spec d₂ s₂).2.1 h
      · exact absurd (h1.trans h) h2
    simp [hz1, hz2]
  · -- different signs: the sign order decides
    rw [decide_eq_true_eq]
    rcases lt_trichotomy (simSign d₂ s₂) (simSign d₁ s₁) with hlt | heq | hgt
    · have := simVal_lt_of_sign_lt hlt
      constructor
      · intro _; linarith
      · intro _; exact hlt
    · exact absurd heq.symm h1
    · have := simVal_lt_of_sign_lt hgt
      constructor
      · intro hc; exact absurd hc (by omega)
      · intro hc; linarith

theorem entGE_iff (a b : SimEntry) : entGE a b ↔ simVal b.d b.s ≤ simVal a.d a.s :=
  simGE_true_iff a.d a.s b.d b.s

theorem entGE_refl (a : SimEntry) : entGE a a := (entGE_iff a a).2 le_rfl

instance : IsTotal SimEntry entGE :=
  ⟨fun a b => by
    rw [entGE_iff, entGE_iff]
    exact (le_total (simVal b.d b.s) (simVal a.d a.s)).imp id id⟩

instance : IsTrans SimEntry entGE :=
  ⟨fun a b c hab hbc =>
    (entGE_iff a c).2 (((entGE_iff b c).1 hbc).trans ((entGE_iff a b).1 hab))⟩

/-! ### Deduplication lemmas -/

theorem mem_dedupFirst {α : Type} [DecidableEq α] {l : List α} {x : α} :
    x ∈ dedupFirst l ↔ x ∈ l := by
  induction l with
  | nil => simp [dedupFirst]
  | cons a l ih =>
    simp only [dedupFirst, List.mem_cons, List.mem_filter, decide_eq_true_eq, ih]
    constructor
    · rintro (rfl | ⟨h, _⟩)
      · exact Or.inl rfl
      · exact Or.inr h
    · rintro (rfl | h)
      · exact Or.inl rfl
      · by_cases hx : x = a
        · exact Or.inl hx
        · exact Or.inr ⟨h, hx⟩

theorem nodup_dedupFirst {α : Type} [DecidableEq α] (l : List α) :
    (dedupFirst l).Nodup := by
  induction l with
  | nil => exact List.nodup_nil
  | cons a l ih =>
    rw [dedupFirst]
    refine List.nodup_cons.2 ⟨?_, ih.filter _⟩
    intro hmem
    have h := (List.mem_filter.1 hmem).2
    simp at h

theorem dedupFirstOn_find? {α β : Type} [DecidableEq β] (key : α → β)
    (l : List α) {x : α} (hx : x ∈ dedupFirstOn key l) :
    l.find? (fun b => decide (key b = key x)) = some x := by
  induction l with
  | nil => cases hx
  | cons a l ih =>
    rcases List.mem_cons.1 hx with rfl | hx'
    · rw [List.find?_cons_of_pos _ (by simp)]
    · have hmem := List.mem_filter.1 hx'
      have hne : key x ≠ key a := by simpa using hmem.2
      rw [List.find?_cons_of_neg _ (by
        simp only [decide_eq_true_eq]
        exact fun h => hne h.symm)]
      exact ih hmem.1

theorem mem_of_mem_dedupFirstOn {α β : Type} [DecidableEq β] {key : α → β}
    {l : List α} {x : α} (hx : x ∈ dedupFirstOn key l) : x ∈ l :=
  List.mem_of_find?_eq_some (dedupFirstOn_find? key l hx)

theorem nodup_keys_dedupFirstOn {α β : Type} [DecidableEq β] (key : α → β)
    (l : List α) : ((dedupFirstOn key l).map key).Nodup := by
  induction l with
  | nil => simp [dedupFirstOn]
  | cons a l ih =>
    rw [dedupFirstOn, List.map_cons]
    refine List.nodup_cons.2 ⟨?_, ?_⟩
    · intro hmem
      obtain ⟨x, hx, hkey⟩ := List.mem_map.1 hmem
      have h := (List.mem_filter.1 hx).2
      simp only [decide_eq_true_eq] at h
      exact h hkey
    · exact ih.sublist ((List.filter_sublist _).map key)

theorem exists_key_dedupFirstOn {α β : Type} [DecidableEq β] (key : α → β)
    (l : List α) {y : α} (hy : y ∈ l) :
    ∃ x ∈ dedupFirstOn key l, key x = key y := by
  induction l with
  | nil => cases hy
  | cons a l ih =>
    rcases List.mem_cons.1 hy with rfl | hy'
    · exact ⟨_, List.mem_cons_self _ _, rfl⟩
    · obtain ⟨x, hx, hkey⟩ := ih hy'
      by_cases hk : key x = key a
      · exact ⟨a, List.mem_cons_self _ _, hk.symm.trans hkey⟩
      · exact ⟨x, List.mem_cons_of_mem _
          (List.mem_filter.2 ⟨hx, by simpa using hk⟩), hkey⟩

/-! ### Label encoding -/

theorem mem_classes {vals : List String} {v : String} :
    v ∈ classes vals ↔ v ∈ vals := by
  unfold classes
  rw [List.mem_insertionSort]
  exact mem_dedupFirst

theorem nodup_classes (vals : List String) : (classes vals).Nodup :=
  (List.perm_insertionSort strLeP (dedupFirst vals)).nodup_iff.2
    (nodup_dedupFirst _)

/-- The encoder round-trip: decoding the code of any value the encoder was
fitted on returns that value. -/
theorem labelDecode_labelEncode {cl : List String} {v : String} (h : v ∈ cl) :
    labelDecode cl (labelEncode cl v) = v := by
  unfold labelDecode labelEncode
  have hlt : cl.indexOf v < cl.length := List.indexOf_lt_length.2 h
  rw [List.getD_eq_getElem cl "" hlt]
  exact List.getElem_indexOf hlt

/-! ### Access to the similarity matrix -/

theorem simMatrix_length (db : List Row) :
    (simMatrix db).length = (productFeatures db).length := by
  simp [simMatrix]

theorem simMatrix_row_length (db : List Row) {i : ℕ}
    (hi : i < (productFeatures db).length) :
    ((simMatrix db).getD i []).length = (productFeatures db).length := by
  unfold simMatrix
  rw [List.getD_eq_getElem _ _ (by simpa using hi), List.getElem_map]
  simp

theorem simMatrix_entry (db : List Row) {i j : ℕ}
    (hi : i < (productFeatures db).length)
    (hj : j < (productFeatures db).length) :
    ((simMatrix db).getD i []).getD j 0 =
      cosSim ((productFeatures db)[i].f) ((productFeatures db)[j].f) := by
  have hrow : (simMatrix db).getD i [] =
      (productFeatures db).map (fun b => cosSim ((productFeatures db)[i].f) b.f) := by
    unfold simMatrix
    rw [List.getD_eq_getElem _ _ (by simpa using hi), List.getElem_map]
  rw [hrow, List.getD_eq_getElem _ _ (by simpa using hj), List.getElem_map]

theorem simMatrix_entry_symm (db : List Row) (i j : ℕ) :
    ((simMatrix db).getD i []).getD j 0 = ((simMatrix db).getD j []).getD i 0 := by
  by_cases hi : i < (productFeatures db).length <;>
    by_cases hj : j < (productFeatures db).length
  · rw [simMatrix_entry db hi hj, simMatrix_entry db hj hi, cosSim_comm]
  · have h1 : ((simMatrix db).getD i []).getD j 0 = 0 :=
      List.getD_eq_default _ _ (by rw [simMatrix_row_length db hi]; omega)
    have h2 : (simMatrix db).getD j [] = [] :=
      List.getD_eq_default _ _ (by rw [simMatrix_length]; omega)
    rw [h1, h2]
    simp
  · have h1 : (simMatrix db).getD i [] = [] :=
      List.getD_eq_default _ _ (by rw [simMatrix_length]; omega)
    have h2 : ((simMatrix db).getD j []).getD i 0 = 0 :=
      List.getD_eq_default _ _ (by rw [simMatrix_row_length db hj]; omega)
    rw [h1, h2]
    simp
  · have h1 : (simMatrix db).getD i [] = [] :=
      List.getD_eq_default _ _ (by rw [simMatrix_length]; omega)
    have h2 : (simMatrix db).getD j [] = [] :=
      List.getD_eq_default _ _ (by rw [simMatrix_length]; omega)
    rw [h1, h2]
    simp

theorem simMatrix_entry_bounds (db : List Row) (i j : ℕ) :
    -1 ≤ ((simMatrix db).getD i []).getD j 0 ∧
      ((simMatrix db).getD i []).getD j 0 ≤ 1 := by
  by_cases hi : i < (productFeatures db).length
  · by_cases hj : j < (productFeatures db).length
    · rw [simMatrix_entry db hi hj]
      exact ⟨neg_one_le_cosSim _ _, cosSim_le_one _ _⟩
    · rw [List.getD_eq_default _ _ (by rw [simMatrix_row_length db hi]; omega)]
      norm_num
  · have h1 : (simMatrix db).getD i [] = [] :=
      List.getD_eq_default _ _ (by rw [simMatrix_length]; omega)
    rw [h1]
    norm_num

/-! ### Structure of the recommenders -/

theorem recommend_products_mem_simIndex {db : List Row} {pid : String} {N : ℕ}
    {l : List String} (h : recommend_products db pid N = some l) :
    ∀ x ∈ l, x ∈ simIndex db := by
  rcases hf : (productFeatures db).filter (fun e => e.pid == pid) with _ | ⟨q, qs⟩
  · rw [recommend_products, hf] at h
    exact Option.noConfusion h
  rcases qs with _ | ⟨q2, qs2⟩
  · rw [recommend_products, hf] at h
    have h' : (if pid ∈ ((List.insertionSort entGE (simColumn db q)).take (N + 1)).map (·.pid)
          then some ((((List.insertionSort entGE (simColumn db q)).take (N + 1)).map (·.pid)).erase pid)
          else none) = some l := h
    split_ifs at h' with hc
    · have hl : l = (((List.insertionSort entGE (simColumn db q)).take (N + 1)).map (·.pid)).erase pid :=
        (Option.some.inj h').symm
      intro x hx
      rw [hl] at hx
      have hx2 : x ∈ ((List.insertionSort entGE (simColumn db q)).take (N + 1)).map (·.pid) :=
        List.erase_subset _ _ hx
      obtain ⟨e, he, rfl⟩ := List.mem_map.1 hx2
      have he2 : e ∈ List.insertionSort entGE (simColumn db q) :=
        List.take_subset _ _ he
      have he3 : e ∈ simColumn db q :=
        (List.perm_insertionSort entGE _).mem_iff.1 he2
      unfold simColumn at he3
      obtain ⟨o, ho, rfl⟩ := List.mem_map.1 he3
      exact List.mem_map.2 ⟨o, ho, rfl⟩
  · rw [recommend_products, hf] at h
    exact Option.noConfusion h

theorem unionRecs_mem {db : List Row} {N : ℕ} {ps : List String} {u : List String}
    (h : unionRecs db N ps = some u) {x : String} (hx : x ∈ u) :
    ∃ pid ∈ ps, ∃ l, recommend_products db pid N = some l ∧ x ∈ l := by
  induction ps generalizing u with
  | nil =>
    rw [unionRecs] at h
    cases Option.some.inj h
    cases hx
  | cons pid ps ih =>
    rw [unionRecs] at h
    rcases hr : recommend_products db pid N with _ | l
    · rw [hr] at h
      exact Option.noConfusion h
    rcases hrest : unionRecs db N ps with _ | rest
    · rw [hr, hrest] at h
      exact Option.noConfusion h
    rw [hr, hrest] at h
    cases Option.some.inj h
    rcases List.mem_append.1 hx with hxl | hxr
    · exact ⟨pid, List.mem_cons_self _ _, l, hr, hxl⟩
    · obtain ⟨pid', hp', l', hl', hx'⟩ := ih hrest hxr
      exact ⟨pid', List.mem_cons_of_mem _ hp', l', hl', hx'⟩

theorem recommend_customer_cases {db : List Row}
    {setOrd : List String → List String} {cid : String} {N : ℕ}
    {res : List String × List String × String × String}
    (h : recommend_products_for_customer db setOrd cid N = some res) :
    (db.filter (fun r => r.Customer_ID == cid) = [] ∧
      res = ([], [], "Unknown", "Unknown")) ∨
    ∃ r0 rest u, db.filter (fun r => r.Customer_ID == cid) = r0 :: rest ∧
      unionRecs db N ((r0 :: rest).map (·.Product_ID)) = some u ∧
      res = ((setOrd (dedupFirst u)).take N,
        (dedupFirstOn (fun p => p.1)
          ((db.filter (fun r =>
              decide (r.Product_ID ∈ (setOrd (dedupFirst u)).take N))).map
            (fun r => (r.Product_ID, r.Product_Category)))).map
          (fun p => labelDecode (catClasses db) (labelEncode (catClasses db) p.2)),
        labelDecode (cityClasses db) (labelEncode (cityClasses db) r0.City),
        labelDecode (ageClasses db) (labelEncode (ageClasses db) r0.Age_Group)) := by
  rcases hf : db.filter (fun r => r.Customer_ID == cid) with _ | ⟨r0, rest⟩
  · rw [recommend_products_for_customer, hf] at h
    exact Or.inl ⟨hf, (Option.some.inj h).symm⟩
  · rw [recommend_products_for_customer, hf] at h
    have h' : (match unionRecs db N ((r0 :: rest).map (·.Product_ID)) with
        | none => none
        | some u =>
          some ((setOrd (dedupFirst u)).take N,
            (dedupFirstOn (fun p => p.1)
              ((db.filter (fun r =>
                  decide (r.Product_ID ∈ (setOrd (dedupFirst u)).take N))).map
                (fun r => (r.Product_ID, r.Product_Category)))).map
              (fun p => labelDecode (catClasses db) (labelEncode (catClasses db) p.2)),
            labelDecode (cityClasses db) (labelEncode (cityClasses db) r0.City),
            labelDecode (ageClasses db) (labelEncode (ageClasses db) r0.Age_Group))) =
        some res := h
    rcases hu : unionRecs db N ((r0 :: rest).map (·.Product_ID)) with _ | u
    · rw [hu] at h'
      exact Option.noConfusion h'
    · rw [hu] at h'
      exact Or.inr ⟨r0, rest, u, hf, hu, (Option.some.inj h').symm⟩

theorem find?_filter_of_imp {α : Type} (p q : α → Bool) (l : List α)
    (h : ∀ b, p b = true → q b = true) :
    (l.filter q).find? p = l.find? p := by
  induction l with
  | nil => rfl
  | cons a l ih =>
    by_cases hq : q a = true
    · rw [List.filter_cons_of_pos hq]
      by_cases hp : p a = true
      · rw [List.find?_cons_of_pos _ hp, List.find?_cons_of_pos _ hp]
      · rw [List.find?_cons_of_neg _ hp, List.find?_cons_of_neg _ hp, ih]
    · rw [List.filter_cons_of_neg hq, ih, List.find?_cons_of_neg _ ?_]
      intro hp
      exact hq (h a hp)

theorem simIndex_eq_rawTable_pids (db : List Row) :
    simIndex db = (rawTable db).map (·.pid) := by
  unfold simIndex productFeatures
  rw [List.map_map]
  rfl

theorem mem_simIndex_exists_row {db : List Row} {pid : String}
    (h : pid ∈ simIndex db) : ∃ r ∈ db, r.Product_ID = pid := by
  rw [simIndex_eq_rawTable_pids] at h
  obtain ⟨e, he, hepid⟩ := List.mem_map.1 h
  have he2 : e ∈ (db.map (projRow (catClasses db))) := mem_dedupFirst.1 he
  obtain ⟨r, hr, hre⟩ := List.mem_map.1 he2
  refine ⟨r, hr, ?_⟩
  rw [← hepid, ← hre]
  rfl


/-! ### Evaluation of the pipeline on the concrete datasets -/

theorem dbParallel_pf : productFeatures dbParallel =
    [⟨"P1", ⟨0,1,0,0,0,0,0⟩⟩, ⟨"P2", ⟨0,1,0,0,0,0,0⟩⟩, ⟨"P3", ⟨0,0,1,1,1,1,1⟩⟩] := by
  rw [productFeatures, show rawTable dbParallel =
    [⟨"P1", ⟨0,10,0,0,0,0,0⟩⟩, ⟨"P2", ⟨0,10,0,0,0,0,0⟩⟩, ⟨"P3", ⟨0,0,7,2,3,4,5⟩⟩] from by decide]
  norm_num [normColumn, normVal, minQ, maxQ, min_def, max_def]

theorem dbParallel_filter :
    (productFeatures dbParallel).filter (fun e => e.pid == "P1") =
      [⟨"P1", ⟨0,1,0,0,0,0,0⟩⟩] := by
  rw [dbParallel_pf]; decide

theorem dbParallel_rec : recommend_products dbParallel "P1" 5 = some ["P2", "P3"] := by
  rw [recommend_products, dbParallel_filter]
  simp only [show simColumn dbParallel ⟨"P1", ⟨0,1,0,0,0,0,0⟩⟩ =
      [⟨"P1", 1, 1⟩, ⟨"P2", 1, 1⟩, ⟨"P3", 0, 5⟩] from by
        rw [simColumn, dbParallel_pf]; norm_num [dotF],
    show List.insertionSort entGE [(⟨"P1", 1, 1⟩ : SimEntry), ⟨"P2", 1, 1⟩, ⟨"P3", 0, 5⟩] =
      [(⟨"P1", 1, 1⟩ : SimEntry), ⟨"P2", 1, 1⟩, ⟨"P3", 0, 5⟩] from by
        norm_num [entGE, simGE, simSign]]
  decide

theorem dbParallel_cust :
    recommend_products_for_customer dbParallel List.reverse "CU1" 5 =
      some (["P3", "P2"], ["A", "A"], "D", "18-25") := by
  rw [recommend_products_for_customer,
    show dbParallel.filter (fun r => r.Customer_ID == "CU1") =
      [mkRow "CU1" "P1" "A" "D" "18-25" 10 0 0 0 0 0] from by decide]
  simp only [List.map_cons, List.map_nil, mkRow, unionRecs, dbParallel_rec]
  decide

theorem dbParallel_countP :
    (productFeatures dbParallel).countP (fun e =>
      simGE (dotF (⟨0,1,0,0,0,0,0⟩ : FVec) e.f) (dotF e.f e.f)
        (dotF (⟨0,1,0,0,0,0,0⟩ : FVec) ⟨0,1,0,0,0,0,0⟩)
        (dotF (⟨0,1,0,0,0,0,0⟩ : FVec) ⟨0,1,0,0,0,0,0⟩)) = 2 := by
  rw [dbParallel_pf]
  norm_num [List.countP_cons, dotF, simGE, simSign]

theorem dbTwoCats_pf : productFeatures dbTwoCats =
    [⟨"P1", ⟨0,1,0,0,0,0,0⟩⟩, ⟨"P3", ⟨1,0,1,1,1,1,1⟩⟩, ⟨"P2", ⟨0,1,0,0,0,0,0⟩⟩] := by
  rw [productFeatures, show rawTable dbTwoCats =
    [⟨"P1", ⟨0,10,0,0,0,0,0⟩⟩, ⟨"P3", ⟨1,0,7,2,3,4,5⟩⟩, ⟨"P2", ⟨0,10,0,0,0,0,0⟩⟩] from by decide]
  norm_num [normColumn, normVal, minQ, maxQ, min_def, max_def]

theorem dbTwoCats_rec : recommend_products dbTwoCats "P1" 5 = some ["P2", "P3"] := by
  rw [recommend_products, show (productFeatures dbTwoCats).filter (fun e => e.pid == "P1") =
    [⟨"P1", ⟨0,1,0,0,0,0,0⟩⟩] from by rw [dbTwoCats_pf]; decide]
  simp only [show simColumn dbTwoCats ⟨"P1", ⟨0,1,0,0,0,0,0⟩⟩ =
      [⟨"P1", 1, 1⟩, ⟨"P3", 0, 6⟩, ⟨"P2", 1, 1⟩] from by
        rw [simColumn, dbTwoCats_pf]; norm_num [dotF],
    show List.insertionSort entGE [(⟨"P1", 1, 1⟩ : SimEntry), ⟨"P3", 0, 6⟩, ⟨"P2", 1, 1⟩] =
      [(⟨"P1", 1, 1⟩ : SimEntry), ⟨"P2", 1, 1⟩, ⟨"P3", 0, 6⟩] from by
        norm_num [entGE, simGE, simSign]]
  decide

theorem dbTwoCats_cust :
    recommend_products_for_customer dbTwoCats (fun l => l) "CU1" 5 =
      some (["P2", "P3"], ["Y", "X"], "D", "18-25") := by
  rw [recommend_products_for_customer,
    show dbTwoCats.filter (fun r => r.Customer_ID == "CU1") =
      [mkRow "CU1" "P1" "X" "D" "18-25" 10 0 0 0 0 0] from by decide]
  simp only [List.map_cons, List.map_nil, mkRow, unionRecs, dbTwoCats_rec]
  decide

theorem dbZeroVec_pf : productFeatures dbZeroVec =
    [⟨"P1", ⟨0,0,0,0,0,0,0⟩⟩, ⟨"P2", ⟨0,1,1,1,1,1,1⟩⟩] := by
  rw [productFeatures, show rawTable dbZeroVec =
    [⟨"P1", ⟨0,0,0,0,0,0,0⟩⟩, ⟨"P2", ⟨0,7,7,7,7,7,7⟩⟩] from by decide]
  norm_num [normColumn, normVal, minQ, maxQ, min_def, max_def]

theorem dbZeroVec_matrix : simMatrix dbZeroVec = [[0, 0], [0, 1]] := by
  have hzz : cosSim ⟨0,0,0,0,0,0,0⟩ ⟨0,0,0,0,0,0,0⟩ = 0 := by
    unfold cosSim dotF
    norm_num
  have hzv : cosSim ⟨0,0,0,0,0,0,0⟩ ⟨0,1,1,1,1,1,1⟩ = 0 := by
    unfold cosSim dotF
    norm_num
  have hvz : cosSim ⟨0,1,1,1,1,1,1⟩ ⟨0,0,0,0,0,0,0⟩ = 0 := by
    unfold cosSim dotF
    norm_num
  have hvv : cosSim ⟨0,1,1,1,1,1,1⟩ ⟨0,1,1,1,1,1,1⟩ = 1 := by
    unfold cosSim
    rw [show ((dotF ⟨0,1,1,1,1,1,1⟩ ⟨0,1,1,1,1,1,1⟩ : ℚ) : ℝ) = 6 by norm_num [dotF]]
    rw [Real.mul_self_sqrt (by norm_num)]
    norm_num
  rw [simMatrix, dbZeroVec_pf]
  simp only [List.map_cons, List.map_nil]
  rw [hzz, hzv, hvz, hvv]

theorem dbThreeCats_pf : productFeatures dbThreeCats =
    [⟨"P1", ⟨0,0,0,0,0,0,0⟩⟩, ⟨"P2", ⟨1,1/2,1/2,1/2,1/2,1/2,1/2⟩⟩, ⟨"P3", ⟨2,1,1,1,1,1,1⟩⟩] := by
  rw [productFeatures, show rawTable dbThreeCats =
    [⟨"P1", ⟨0,1,1,1,1,1,1⟩⟩, ⟨"P2", ⟨1,2,2,2,2,2,2⟩⟩, ⟨"P3", ⟨2,3,3,3,3,3,3⟩⟩] from by decide]
  norm_num [normColumn, normVal, minQ, maxQ, min_def, max_def]

/-! ### The claims -/

/-- **C1** (amended). The original claim — for every product identifier present
in the product feature table and every `num_recommendations`, the list returned
by `recommend_products` never contains the query product and the call completes
without error — is false as stated (see `C1_counterexample`). It holds under two
hypotheses: the query identifier labels exactly one row of the feature table,
and at most `num_recommendations + 1` products have similarity-column value at
least the query's self-similarity (the hypothesis is phrased with the rational
comparator `simGE`, which decides the real cosine-similarity order by
`simGE_true_iff`). Then the call completes and the result excludes the query. -/
theorem C1_recommend_products_excludes_query (db : List Row) (pid : String)
    (N : ℕ) (q : PRow)
    (hq : (productFeatures db).filter (fun e => e.pid == pid) = [q])
    (hcnt : (productFeatures db).countP
        (fun e => simGE (dotF q.f e.f) (dotF e.f e.f) (dotF q.f q.f) (dotF q.f q.f)) ≤ N + 1) :
    ∃ l, recommend_products db pid N = some l ∧ pid ∉ l := by
  classical
  set col := simColumn db q with hcol
  set sorted := List.insertionSort entGE col with hsorted
  set top := (sorted.take (N + 1)).map (·.pid) with htop
  set eq0 : SimEntry := ⟨q.pid, dotF q.f q.f, dotF q.f q.f⟩ with heq0
  set p : SimEntry → Bool :=
    fun e => simGE e.d e.s (dotF q.f q.f) (dotF q.f q.f) with hp
  have hq_self : q ∈ [q] := List.mem_singleton_self q
  have hq_mem_pf : q ∈ productFeatures db := List.mem_of_mem_filter (hq ▸ hq_self)
  have hqpid : q.pid = pid := by
    have h := List.of_mem_filter
      (show q ∈ (productFeatures db).filter (fun e => e.pid == pid) by
        rw [hq]; exact hq_self)
    simpa using h
  have heq_mem_col : eq0 ∈ col := by
    rw [hcol]
    exact List.mem_map.2 ⟨q, hq_mem_pf, rfl⟩
  have hperm : sorted.Perm col := List.perm_insertionSort entGE col
  have hsort : sorted.Sorted entGE := List.sorted_insertionSort entGE col
  have heq_mem_sorted : eq0 ∈ sorted := hperm.mem_iff.2 heq_mem_col
  obtain ⟨k, hk, hkeq⟩ := List.mem_iff_getElem.1 heq_mem_sorted
  have hlen_take : (sorted.take (k + 1)).length = k + 1 := by
    rw [List.length_take]; omega
  have hcount_take : (sorted.take (k + 1)).countP p = k + 1 := by
    rw [List.countP_eq_length.2, hlen_take]
    intro a ha
    obtain ⟨m, hm, hma⟩ := List.mem_iff_getElem.1 ha
    rw [hlen_take] at hm
    have hm2 : m < sorted.length := by omega
    have hma2 : sorted.get ⟨m, hm2⟩ = a := by
      rw [List.get_eq_getElem, ← hma, List.getElem_take]
    rcases Nat.lt_or_ge m k with hmk | hmk
    · have hrel : entGE (sorted.get ⟨m, hm2⟩) (sorted.get ⟨k, hk⟩) := by
        rw [List.get_eq_getElem, List.get_eq_getElem]
        exact List.pairwise_iff_getElem.1 hsort m k hm2 hk hmk
      have hkg : sorted.get ⟨k, hk⟩ = eq0 := hkeq
      rw [hma2, hkg] at hrel
      exact hrel
    · have hmke : m = k := by omega
      subst hmke
      have hkg : sorted.get ⟨m, hm2⟩ = eq0 := hkeq
      rw [hkg] at hma2
      rw [← hma2]
      exact entGE_refl eq0
  have hmono : (sorted.take (k + 1)).countP p ≤ sorted.countP p :=
    (List.take_sublist _ _).countP_le p
  have hcol_count : sorted.countP p = col.countP p := hperm.countP_eq p
  have hpf_count : col.countP p = (productFeatures db).countP
      (fun e => simGE (dotF q.f e.f) (dotF e.f e.f) (dotF q.f q.f) (dotF q.f q.f)) := by
    rw [hcol]
    unfold simColumn
    rw [List.countP_map]
    rfl
  have hk_lt : k < N + 1 := by omega
  have heq_mem_take : eq0 ∈ sorted.take (N + 1) := by
    refine List.mem_iff_getElem.2 ⟨k, ?_, ?_⟩
    · rw [List.length_take]; omega
    · rw [List.getElem_take]; exact hkeq
  have hpid_top : pid ∈ top := by
    rw [htop]
    refine List.mem_map.2 ⟨eq0, heq_mem_take, ?_⟩
    rw [heq0]
    exact hqpid
  have hcount_top : top.count pid ≤ 1 := by
    have h1 : top.count pid ≤ (sorted.map (·.pid)).count pid := by
      refine List.Sublist.count_le ?_ pid
      rw [htop]
      exact (List.take_sublist _ _).map _
    have h2 : (sorted.map (·.pid)).count pid = (col.map (·.pid)).count pid :=
      (hperm.map (·.pid)).count_eq pid
    have h3 : (col.map (·.pid)).count pid = 1 := by
      rw [hcol]
      unfold simColumn
      rw [List.map_map]
      simp only [List.count, List.countP_map]
      have : (productFeatures db).countP (fun e => e.pid == pid) = 1 := by
        rw [List.countP_eq_length_filter, hq]
        rfl
      rw [← this]
      rfl
    omega
  have hresult : recommend_products db pid N = some (top.erase pid) := by
    rw [recommend_products, hq]
    show (if pid ∈ top then some (top.erase pid) else none) = some (top.erase pid)
    rw [if_pos hpid_top]
  refine ⟨top.erase pid, hresult, ?_⟩
  have hcnt_erase : (top.erase pid).count pid = 0 := by
    rw [List.count_erase_self]
    have hpos : 1 ≤ top.count pid := List.one_le_count_iff.2 hpid_top
    omega
  exact List.count_eq_zero.1 hcnt_erase


/-- **C1**, counterexample to the claim as stated: in `dbDupPid` the identifier
`"P1"` is present in the product feature table but labels two feature rows, so
`product_similarity_df["P1"]` is a two-column frame and `.sort_values()` raises
a `TypeError`; the call does not complete (modelled by `none`). -/
theorem C1_counterexample : ("P1" ∈ simIndex dbDupPid) ∧
    recommend_products dbDupPid "P1" 5 = none := by
  constructor
  · rw [simIndex_eq_rawTable_pids, show rawTable dbDupPid =
      [⟨"P1", ⟨0,10,1,1,1,1,1⟩⟩, ⟨"P1", ⟨0,20,2,2,2,2,2⟩⟩, ⟨"P2", ⟨0,0,0,0,0,0,0⟩⟩] from by decide]
    decide
  · have hfil : (productFeatures dbDupPid).filter (fun e => e.pid == "P1") =
        [⟨"P1", ⟨0,1/2,1/2,1/2,1/2,1/2,1/2⟩⟩, ⟨"P1", ⟨0,1,1,1,1,1,1⟩⟩] := by
      rw [productFeatures, show rawTable dbDupPid =
        [⟨"P1", ⟨0,10,1,1,1,1,1⟩⟩, ⟨"P1", ⟨0,20,2,2,2,2,2⟩⟩, ⟨"P2", ⟨0,0,0,0,0,0,0⟩⟩] from by decide]
      norm_num [normColumn, normVal, minQ, maxQ, min_def, max_def, List.filter_cons]
      decide
    rw [recommend_products, hfil]



/-- Witness for `C1_recommend_products_excludes_query` on `dbParallel` with
query `"P1"` and the default `num_recommendations = 5`. -/
theorem C1_witness :
    ((productFeatures dbParallel).filter (fun e => e.pid == "P1") =
      [⟨"P1", ⟨0,1,0,0,0,0,0⟩⟩]) ∧
    ((productFeatures dbParallel).countP (fun e =>
      simGE (dotF (⟨0,1,0,0,0,0,0⟩ : FVec) e.f) (dotF e.f e.f)
        (dotF (⟨0,1,0,0,0,0,0⟩ : FVec) ⟨0,1,0,0,0,0,0⟩)
        (dotF (⟨0,1,0,0,0,0,0⟩ : FVec) ⟨0,1,0,0,0,0,0⟩)) ≤ 5 + 1) ∧
    (∃ l, recommend_products dbParallel "P1" 5 = some l ∧ "P1" ∉ l) := by
  have hcnt : (productFeatures dbParallel).countP (fun e =>
      simGE (dotF (⟨0,1,0,0,0,0,0⟩ : FVec) e.f) (dotF e.f e.f)
        (dotF (⟨0,1,0,0,0,0,0⟩ : FVec) ⟨0,1,0,0,0,0,0⟩)
        (dotF (⟨0,1,0,0,0,0,0⟩ : FVec) ⟨0,1,0,0,0,0,0⟩)) ≤ 5 + 1 := by
    rw [dbParallel_countP]
    norm_num
  exact ⟨dbParallel_filter, hcnt,
    C1_recommend_products_excludes_query dbParallel "P1" 5 ⟨"P1", ⟨0,1,0,0,0,0,0⟩⟩
      dbParallel_filter hcnt⟩

/-- **C2** (amended). The original claim — the diagonal entry of the similarity
matrix equals `1` for every product — is false as stated (see
`C2_counterexample`, a product whose normalized feature vector is zero). It
holds for every product whose feature vector is nonzero, i.e. has nonzero
squared norm. -/
theorem C2_diagonal_one (db : List Row) (i : ℕ)
    (hi : i < (productFeatures db).length)
    (hnz : dotF ((productFeatures db)[i].f) ((productFeatures db)[i].f) ≠ 0) :
    ((simMatrix db).getD i []).getD i 0 = 1 := by
  rw [simMatrix_entry db hi hi]
  exact cosSim_self _ hnz

/-- **C2**, counterexample to the claim as stated: in `dbZeroVec` the product
`"P1"` is in the feature table, but its normalized feature vector is zero, so
its self-similarity entry is `0`, not `1` (`sklearn` maps zero rows to zero). -/
theorem C2_counterexample :
    simIndex dbZeroVec = ["P1", "P2"] ∧
    ((simMatrix dbZeroVec).getD 0 []).getD 0 0 = 0 ∧ ((0 : ℝ) ≠ 1) := by
  refine ⟨?_, ?_, by norm_num⟩
  · rw [simIndex, dbZeroVec_pf]
    decide
  · rw [dbZeroVec_matrix]
    norm_num

/-- Witness for `C2_diagonal_one` on `dbZeroVec` at index `1` (product `"P2"`,
nonzero feature vector). -/
theorem C2_witness :
    (1 < (productFeatures dbZeroVec).length) ∧
    ((simMatrix dbZeroVec).getD 1 []).getD 1 0 = 1 := by
  have hi : 1 < (productFeatures dbZeroVec).length := by
    rw [dbZeroVec_pf]
    norm_num
  refine ⟨hi, C2_diagonal_one dbZeroVec 1 hi ?_⟩
  have he : (productFeatures dbZeroVec).getD 1 default = ⟨"P2", ⟨0,1,1,1,1,1,1⟩⟩ := by
    rw [dbZeroVec_pf]
    rfl
  rw [← List.getD_eq_getElem (productFeatures dbZeroVec) default hi, he]
  norm_num [dotF]

/-- **C3**. The similarity matrix is symmetric: the entry at `(i, j)` equals the
entry at `(j, i)` (out-of-range accesses read the default `0` on both sides). -/
theorem C3_similarity_symmetric (db : List Row) (i j : ℕ) :
    ((simMatrix db).getD i []).getD j 0 = ((simMatrix db).getD j []).getD i 0 :=
  simMatrix_entry_symm db i j

/-- **C4**. For a customer identifier that occurs in no dataset row,
`recommend_products_for_customer` returns the empty recommendation list, the
empty category list and the sentinel `"Unknown"` for city and age group (the
embedding is pure, so the dataset and similarity matrix are untouched by
construction). -/
theorem C4_unknown_customer (db : List Row) (setOrd : List String → List String)
    (cid : String) (N : ℕ) (h : ∀ r ∈ db, r.Customer_ID ≠ cid) :
    recommend_products_for_customer db setOrd cid N =
      some ([], [], "Unknown", "Unknown") := by
  rw [recommend_products_for_customer,
    show db.filter (fun r => r.Customer_ID == cid) = [] from
      List.filter_eq_nil.2 (fun r hr => by simpa using h r hr)]

/-- Witness for `C4_unknown_customer` on `dbZeroVec` with the unknown
identifier `"NOBODY"`. -/
theorem C4_witness : (∀ r ∈ dbZeroVec, r.Customer_ID ≠ "NOBODY") ∧
    recommend_products_for_customer dbZeroVec (fun l => l) "NOBODY" 5 =
      some ([], [], "Unknown", "Unknown") := by
  have h : ∀ r ∈ dbZeroVec, r.Customer_ID ≠ "NOBODY" := by decide
  exact ⟨h, C4_unknown_customer dbZeroVec (fun l => l) "NOBODY" 5 h⟩

/-- **C5** (amended). The original claim — every dimension of every product
feature vector, including the encoded product category, lies in `[0, 1]` — is
false as stated: the encoded category column is not normalized (see
`C5_counterexample`). The six numeric columns are min-max scaled into `[0, 1]`,
provided the column maximum exceeds the column minimum (otherwise the scaling
divides by zero: `NaN` in pandas, `0` in this embedding). -/
theorem C5_numeric_features_normalized (db : List Row) (e : PRow)
    (he : e ∈ productFeatures db) :
    (minQ ((rawTable db).map (fun x => x.f.price)) <
        maxQ ((rawTable db).map (fun x => x.f.price)) →
      0 ≤ e.f.price ∧ e.f.price ≤ 1) ∧
    (minQ ((rawTable db).map (fun x => x.f.comp)) <
        maxQ ((rawTable db).map (fun x => x.f.comp)) →
      0 ≤ e.f.comp ∧ e.f.comp ≤ 1) ∧
    (minQ ((rawTable db).map (fun x => x.f.ctr)) <
        maxQ ((rawTable db).map (fun x => x.f.ctr)) →
      0 ≤ e.f.ctr ∧ e.f.ctr ≤ 1) ∧
    (minQ ((rawTable db).map (fun x => x.f.btime)) <
        maxQ ((rawTable db).map (fun x => x.f.btime)) →
      0 ≤ e.f.btime ∧ e.f.btime ≤ 1) ∧
    (minQ ((rawTable db).map (fun x => x.f.voice)) <
        maxQ ((rawTable db).map (fun x => x.f.voice)) →
      0 ≤ e.f.voice ∧ e.f.voice ≤ 1) ∧
    (minQ ((rawTable db).map (fun x => x.f.visual)) <
        maxQ ((rawTable db).map (fun x => x.f.visual)) →
      0 ≤ e.f.visual ∧ e.f.visual ≤ 1) := by
  simp only [productFeatures] at he
  obtain ⟨e0, he0, rfl⟩ := List.mem_map.1 he
  refine ⟨fun hlt => ?_, fun hlt => ?_, fun hlt => ?_, fun hlt => ?_,
    fun hlt => ?_, fun hlt => ?_⟩
  · exact normVal_mem_unit (minQ_le_of_mem (List.mem_map.2 ⟨e0, he0, rfl⟩))
      (le_maxQ_of_mem (List.mem_map.2 ⟨e0, he0, rfl⟩)) hlt
  · exact normVal_mem_unit (minQ_le_of_mem (List.mem_map.2 ⟨e0, he0, rfl⟩))
      (le_maxQ_of_mem (List.mem_map.2 ⟨e0, he0, rfl⟩)) hlt
  · exact normVal_mem_unit (minQ_le_of_mem (List.mem_map.2 ⟨e0, he0, rfl⟩))
      (le_maxQ_of_mem (List.mem_map.2 ⟨e0, he0, rfl⟩)) hlt
  · exact normVal_mem_unit (minQ_le_of_mem (List.mem_map.2 ⟨e0, he0, rfl⟩))
      (le_maxQ_of_mem (List.mem_map.2 ⟨e0, he0, rfl⟩)) hlt
  · exact normVal_mem_unit (minQ_le_of_mem (List.mem_map.2 ⟨e0, he0, rfl⟩))
      (le_maxQ_of_mem (List.mem_map.2 ⟨e0, he0, rfl⟩)) hlt
  · exact normVal_mem_unit (minQ_le_of_mem (List.mem_map.2 ⟨e0, he0, rfl⟩))
      (le_maxQ_of_mem (List.mem_map.2 ⟨e0, he0, rfl⟩)) hlt

/-- **C5**, counterexample to the claim as stated: in `dbThreeCats` the product
`"P3"` carries the category code `2`, which is a dimension of its feature
vector used for similarity and lies outside `[0, 1]`. -/
theorem C5_counterexample :
    (⟨"P3", ⟨2,1,1,1,1,1,1⟩⟩ : PRow) ∈ productFeatures dbThreeCats ∧
    ¬((⟨"P3", ⟨2,1,1,1,1,1,1⟩⟩ : PRow).f.cat ≤ 1) := by
  refine ⟨?_, by norm_num⟩
  rw [dbThreeCats_pf]
  exact List.mem_cons_of_mem _ (List.mem_cons_of_mem _ (List.mem_cons_self _ _))

/-- Witness for `C5_numeric_features_normalized` on `dbThreeCats` at product
`"P3"`, for the price column. -/
theorem C5_witness :
    ((⟨"P3", ⟨2,1,1,1,1,1,1⟩⟩ : PRow) ∈ productFeatures dbThreeCats) ∧
    (minQ ((rawTable dbThreeCats).map (fun x => x.f.price)) <
      maxQ ((rawTable dbThreeCats).map (fun x => x.f.price))) ∧
    (0 ≤ (⟨"P3", ⟨2,1,1,1,1,1,1⟩⟩ : PRow).f.price ∧
      (⟨"P3", ⟨2,1,1,1,1,1,1⟩⟩ : PRow).f.price ≤ 1) := by
  have hmem : (⟨"P3", ⟨2,1,1,1,1,1,1⟩⟩ : PRow) ∈ productFeatures dbThreeCats := by
    rw [dbThreeCats_pf]
    exact List.mem_cons_of_mem _ (List.mem_cons_of_mem _ (List.mem_cons_self _ _))
  have hlt : minQ ((rawTable dbThreeCats).map (fun x => x.f.price)) <
      maxQ ((rawTable dbThreeCats).map (fun x => x.f.price)) := by
    rw [show rawTable dbThreeCats =
      [⟨"P1", ⟨0,1,1,1,1,1,1⟩⟩, ⟨"P2", ⟨1,2,2,2,2,2,2⟩⟩, ⟨"P3", ⟨2,3,3,3,3,3,3⟩⟩] from by decide]
    norm_num [minQ, maxQ, min_def, max_def]
  exact ⟨hmem, hlt, (C5_numeric_features_normalized dbThreeCats _ hmem).1 hlt⟩

/-- **C6** (amended). The original claim — the returned list is ordered by
descending similarity to the customer's purchased products and omits no more
similar catalog product — is false as stated: the list is built from a Python
`set`, whose iteration order is unspecified (see `C6_counterexample`). What
holds for every iteration order `setOrd` (any permutation): the returned list
has no duplicates, and every returned product belongs to the top-similar
recommendation list of some product the customer purchased. -/
theorem C6_recommendations_from_purchases (db : List Row)
    (setOrd : List String → List String) (cid : String) (N : ℕ)
    (res : List String × List String × String × String)
    (hperm : ∀ l, (setOrd l).Perm l)
    (h : recommend_products_for_customer db setOrd cid N = some res) :
    res.1.Nodup ∧ ∀ x ∈ res.1,
      ∃ pid ∈ (db.filter (fun r => r.Customer_ID == cid)).map (·.Product_ID),
        ∃ l, recommend_products db pid N = some l ∧ x ∈ l := by
  rcases recommend_customer_cases h with ⟨hf, rfl⟩ | ⟨r0, rest, u, hf, hu, rfl⟩
  · exact ⟨List.nodup_nil, by simp⟩
  · refine ⟨?_, ?_⟩
    · exact ((hperm _).nodup_iff.2 (nodup_dedupFirst u)).sublist
        (List.take_sublist _ _)
    · intro x hx
      have hx1 : x ∈ setOrd (dedupFirst u) := List.take_subset _ _ hx
      have hx2 : x ∈ u := mem_dedupFirst.1 ((hperm _).mem_iff.1 hx1)
      obtain ⟨pid, hpid, l, hl, hxl⟩ := unionRecs_mem hu hx2
      rw [hf]
      exact ⟨pid, hpid, l, hl, hxl⟩

/-- **C6**, counterexample to the claim as stated: on `dbParallel` the customer
`"CU1"` bought only `"P1"`; with the legitimate set order `List.reverse` the
returned list is `["P3", "P2"]`, although `"P2"` (returned later) is strictly
more similar to the purchased product `"P1"` than `"P3"` (returned first) — the
list is not in descending similarity order. -/
theorem C6_counterexample :
    recommend_products_for_customer dbParallel List.reverse "CU1" 5 =
      some (["P3", "P2"], ["A", "A"], "D", "18-25") ∧
    dbParallel.filter (fun r => r.Customer_ID == "CU1") =
      [mkRow "CU1" "P1" "A" "D" "18-25" 10 0 0 0 0 0] ∧
    cosSim ((productFeatures dbParallel).getD 0 default).f
        ((productFeatures dbParallel).getD 2 default).f <
      cosSim ((productFeatures dbParallel).getD 0 default).f
        ((productFeatures dbParallel).getD 1 default).f := by
  have h1 : cosSim ⟨0,1,0,0,0,0,0⟩ ⟨0,0,1,1,1,1,1⟩ = 0 := by
    unfold cosSim dotF
    norm_num
  have h2 : cosSim ⟨0,1,0,0,0,0,0⟩ ⟨0,1,0,0,0,0,0⟩ = 1 := by
    unfold cosSim
    rw [show ((dotF ⟨0,1,0,0,0,0,0⟩ ⟨0,1,0,0,0,0,0⟩ : ℚ) : ℝ) = 1 by norm_num [dotF],
      Real.sqrt_one]
    norm_num
  refine ⟨dbParallel_cust, by decide, ?_⟩
  rw [dbParallel_pf]
  simp only [List.getD_cons_zero, List.getD_cons_succ]
  rw [h1, h2]
  norm_num

/-- Witness for `C6_recommendations_from_purchases` on `dbParallel` with the
set order `List.reverse`. -/
theorem C6_witness :
    (∀ l : List String, (List.reverse l).Perm l) ∧
    (["P3", "P2"] : List String).Nodup ∧
    (∀ x ∈ (["P3", "P2"] : List String),
      ∃ pid ∈ (dbParallel.filter (fun r => r.Customer_ID == "CU1")).map (·.Product_ID),
        ∃ l, recommend_products dbParallel pid 5 = some l ∧ x ∈ l) := by
  have hperm : ∀ l : List String, (List.reverse l).Perm l := fun l =>
    List.reverse_perm l
  have h := C6_recommendations_from_purchases dbParallel List.reverse "CU1" 5
    (["P3", "P2"], ["A", "A"], "D", "18-25") hperm dbParallel_cust
  exact ⟨hperm, h.1, h.2⟩

/-- **C7** (amended). The original claim — the i-th returned category is the
category of the i-th recommended product — is false as stated: the categories
are listed in dataset row order, not in the order of the product list (see
`C7_counterexample`). What holds: the category list has the same length as the
product list and is a permutation of the dataset categories of the returned
products (each product's category being that of its first dataset row). -/
theorem C7_categories_match_products (db : List Row)
    (setOrd : List String → List String) (cid : String) (N : ℕ)
    (res : List String × List String × String × String)
    (hperm : ∀ l, (setOrd l).Perm l)
    (h : recommend_products_for_customer db setOrd cid N = some res) :
    res.2.1.length = res.1.length ∧ res.2.1.Perm (res.1.map (prodCategory db)) := by
  rcases recommend_customer_cases h with ⟨hf, rfl⟩ | ⟨r0, rest, u, hf, hu, rfl⟩
  · exact ⟨rfl, by simp⟩
  set recs := (setOrd (dedupFirst u)).take N with hrecs
  set pl := (db.filter (fun r => decide (r.Product_ID ∈ recs))).map
    (fun r => (r.Product_ID, r.Product_Category)) with hpl
  set pairs := dedupFirstOn (fun p => p.1) pl with hpairs
  -- every kept pair is the first dataset row with its product identifier
  have hpair_row : ∀ x ∈ pairs,
      ∃ r' : Row, db.find? (fun r => decide (r.Product_ID = x.1)) = some r' ∧
        (r'.Product_ID, r'.Product_Category) = x := by
    intro x hx
    have hx_pl : x ∈ pl := mem_of_mem_dedupFirstOn hx
    have hx_recs : x.1 ∈ recs := by
      rw [hpl] at hx_pl
      obtain ⟨r, hr, hrx⟩ := List.mem_map.1 hx_pl
      have hpred := List.of_mem_filter hr
      rw [← hrx]
      simpa using hpred
    have hfind := dedupFirstOn_find? (fun p => p.1) pl hx
    rw [hpl, List.find?_map] at hfind
    simp only [Function.comp_def] at hfind
    dsimp only at hfind
    rw [find?_filter_of_imp (fun r => decide (r.Product_ID = x.1))
      (fun r => decide (r.Product_ID ∈ recs)) db
      (by
        intro b hb
        simp only [decide_eq_true_eq] at hb ⊢
        rw [hb]
        exact hx_recs)] at hfind
    rcases hfd : db.find? (fun r => decide (r.Product_ID = x.1)) with _ | r'
    · rw [hfd] at hfind
      exact Option.noConfusion hfind
    · rw [hfd] at hfind
      exact ⟨r', hfd, Option.some.inj hfind⟩
  -- the second component of a kept pair is the dataset category of its key
  have hpair_cat : ∀ x ∈ pairs, prodCategory db x.1 = x.2 := by
    intro x hx
    obtain ⟨r', hr', hx'⟩ := hpair_row x hx
    unfold prodCategory
    rw [hr']
    rw [← hx']
    rfl
  -- the decode∘encode round-trip is the identity on kept categories
  have hcats_id : ∀ x ∈ pairs,
      labelDecode (catClasses db) (labelEncode (catClasses db) x.2) = x.2 := by
    intro x hx
    obtain ⟨r', hr', hx'⟩ := hpair_row x hx
    have hr'_mem : r' ∈ db := List.mem_of_find?_eq_some hr'
    have : x.2 ∈ db.map (·.Product_Category) := by
      rw [← hx']
      exact List.mem_map.2 ⟨r', hr'_mem, rfl⟩
    exact labelDecode_labelEncode (mem_classes.2 this)
  -- keys of the kept pairs are a permutation of the recommended products
  have hkeys_nodup : (pairs.map (fun p => p.1)).Nodup := nodup_keys_dedupFirstOn _ _
  have hrecs_nodup : recs.Nodup := by
    rw [hrecs]
    exact ((hperm _).nodup_iff.2 (nodup_dedupFirst u)).sublist (List.take_sublist _ _)
  have hsame : ∀ y, y ∈ pairs.map (fun p => p.1) ↔ y ∈ recs := by
    intro y
    constructor
    · intro hy
      obtain ⟨x, hx, rfl⟩ := List.mem_map.1 hy
      have hx_pl : x ∈ pl := mem_of_mem_dedupFirstOn hx
      rw [hpl] at hx_pl
      obtain ⟨r, hr, hrx⟩ := List.mem_map.1 hx_pl
      have hpred := List.of_mem_filter hr
      rw [← hrx]
      simpa using hpred
    · intro hy
      -- y is a recommended product, hence a product of the feature table,
      -- hence carried by some dataset row
      have hy_sim : y ∈ simIndex db := by
        have hy1 : y ∈ setOrd (dedupFirst u) := List.take_subset _ _ hy
        have hy2 : y ∈ dedupFirst u := (hperm _).mem_iff.1 hy1
        have hy3 : y ∈ u := mem_dedupFirst.1 hy2
        obtain ⟨pid, _, l, hl, hyl⟩ := unionRecs_mem hu hy3
        exact recommend_products_mem_simIndex hl y hyl
      obtain ⟨r, hr, hry⟩ := mem_simIndex_exists_row hy_sim
      have hr_f : r ∈ db.filter (fun r => decide (r.Product_ID ∈ recs)) := by
        rw [List.mem_filter]
        exact ⟨hr, by simp [hry, hy]⟩
      have hpl_mem : (r.Product_ID, r.Product_Category) ∈ pl := by
        rw [hpl]
        exact List.mem_map.2 ⟨r, hr_f, rfl⟩
      obtain ⟨x, hx, hkey⟩ := exists_key_dedupFirstOn (fun p => p.1) pl hpl_mem
      refine List.mem_map.2 ⟨x, hx, ?_⟩
      rw [hkey]
      exact hry
  have hkeys_perm : (pairs.map (fun p => p.1)).Perm recs := by
    refine List.perm_of_nodup_nodup_toFinset_eq hkeys_nodup hrecs_nodup ?_
    ext y
    simp only [List.mem_toFinset]
    exact hsame y
  -- assemble
  have hcats_eq : pairs.map
      (fun p => labelDecode (catClasses db) (labelEncode (catClasses db) p.2)) =
      (pairs.map (fun p => p.1)).map (prodCategory db) := by
    rw [List.map_map]
    refine List.map_congr_left ?_
    intro x hx
    have h1 := hcats_id x hx
    have h2 := hpair_cat x hx
    simp only [Function.comp]
    rw [h1, h2]
  constructor
  · simp only [hcats_eq]
    simpa using hkeys_perm.length_eq
  · rw [hcats_eq]
    exact hkeys_perm.map (prodCategory db)


/-- **C7**, counterexample to the claim as stated: on `dbTwoCats` (insertion
set order) the returned products are `["P2", "P3"]` with category list
`["Y", "X"]`, but the category of the first returned product `"P2"` is `"X"`,
not `"Y"`: the two lists are misaligned. -/
theorem C7_counterexample :
    recommend_products_for_customer dbTwoCats (fun l => l) "CU1" 5 =
      some (["P2", "P3"], ["Y", "X"], "D", "18-25") ∧
    prodCategory dbTwoCats "P2" = "X" ∧ ("Y" : String) ≠ "X" := by
  refine ⟨dbTwoCats_cust, ?_, by decide⟩
  unfold prodCategory
  decide

/-- Witness for `C7_categories_match_products` on `dbTwoCats` with the
insertion set order. -/
theorem C7_witness :
    (∀ l : List String, ((fun l => l) l : List String).Perm l) ∧
    (["Y", "X"] : List String).length = (["P2", "P3"] : List String).length ∧
    (["Y", "X"] : List String).Perm
      ((["P2", "P3"] : List String).map (prodCategory dbTwoCats)) := by
  have hperm : ∀ l : List String, ((fun l => l) l : List String).Perm l :=
    fun l => List.Perm.refl l
  have h := C7_categories_match_products dbTwoCats (fun l => l) "CU1" 5
    (["P2", "P3"], ["Y", "X"], "D", "18-25") hperm dbTwoCats_cust
  exact ⟨hperm, h.1, h.2⟩

/-- **C8**. The similarity matrix is square — as many rows as index labels, each
row as long as the index — and every entry lies in `[-1, 1]` (out-of-range
accesses read the default `0`, also in `[-1, 1]`). -/
theorem C8_similarity_entries_bounded (db : List Row) :
    (simMatrix db).length = (simIndex db).length ∧
    (∀ row ∈ simMatrix db, row.length = (simIndex db).length) ∧
    (∀ i j : ℕ, -1 ≤ ((simMatrix db).getD i []).getD j 0 ∧
      ((simMatrix db).getD i []).getD j 0 ≤ 1) := by
  refine ⟨?_, ?_, fun i j => simMatrix_entry_bounds db i j⟩
  · rw [simMatrix_length, simIndex]
    simp
  · intro row hrow
    unfold simMatrix at hrow
    obtain ⟨a, ha, rfl⟩ := List.mem_map.1 hrow
    rw [simIndex]
    simp

/-- Witness for `C8_similarity_entries_bounded` on `dbZeroVec`: its first
matrix row has the index length, and the entry at `(1, 0)` is within bounds. -/
theorem C8_witness :
    ([(0 : ℝ), 0] : List ℝ).length = (simIndex dbZeroVec).length ∧
    (-1 ≤ ((simMatrix dbZeroVec).getD 1 []).getD 0 0 ∧
      ((simMatrix dbZeroVec).getD 1 []).getD 0 0 ≤ 1) := by
  obtain ⟨h1, h2, h3⟩ := C8_similarity_entries_bounded dbZeroVec
  refine ⟨?_, h3 1 0⟩
  exact h2 [0, 0] (by rw [dbZeroVec_matrix]; exact List.mem_cons_self _ _)

/-- **C9**. The label encoders are invertible on fitted data: for every value
occurring in a column, decoding the encoded value returns the original value
(this applies to the city, age group and product category strings the
recommender returns to the user). -/
theorem C9_encoder_roundtrip (vals : List String) (v : String) (hv : v ∈ vals) :
    labelDecode (classes vals) (labelEncode (classes vals) v) = v :=
  labelDecode_labelEncode (mem_classes.2 hv)

/-- Witness for `C9_encoder_roundtrip` on the column `["A", "B"]` and the value
`"B"`. -/
theorem C9_witness :
    ("B" ∈ (["A", "B"] : List String)) ∧
    labelDecode (classes ["A", "B"]) (labelEncode (classes ["A", "B"]) "B") = "B" :=
  ⟨by decide, C9_encoder_roundtrip ["A", "B"] "B" (by decide)⟩

/-- **C10**. For every set iteration order (any permutation) and every customer
identifier, when `recommend_products_for_customer` returns, its recommendation
list has length at most `num_recommendations` and every returned identifier is
a label of the product feature table. -/
theorem C10_recommendation_list_bounded (db : List Row)
    (setOrd : List String → List String) (cid : String) (N : ℕ)
    (res : List String × List String × String × String)
    (hperm : ∀ l, (setOrd l).Perm l)
    (h : recommend_products_for_customer db setOrd cid N = some res) :
    res.1.length ≤ N ∧ ∀ x ∈ res.1, x ∈ simIndex db := by
  rcases recommend_customer_cases h with ⟨hf, rfl⟩ | ⟨r0, rest, u, hf, hu, rfl⟩
  · exact ⟨Nat.zero_le N, by simp⟩
  · refine ⟨List.length_take_le _ _, ?_⟩
    intro x hx
    have hx1 : x ∈ setOrd (dedupFirst u) := List.take_subset _ _ hx
    have hx2 : x ∈ u := mem_dedupFirst.1 ((hperm _).mem_iff.1 hx1)
    obtain ⟨pid, hpid, l, hl, hxl⟩ := unionRecs_mem hu hx2
    exact recommend_products_mem_simIndex hl x hxl

/-- Witness for `C10_recommendation_list_bounded` on `dbTwoCats` with the
insertion set order. -/
theorem C10_witness :
    (∀ l : List String, ((fun l => l) l : List String).Perm l) ∧
    (["P2", "P3"] : List String).length ≤ 5 ∧
    (∀ x ∈ (["P2", "P3"] : List String), x ∈ simIndex dbTwoCats) := by
  have hperm : ∀ l : List String, ((fun l => l) l : List String).Perm l :=
    fun l => List.Perm.refl l
  have h := C10_recommendation_list_bounded dbTwoCats (fun l => l) "CU1" 5
    (["P2", "P3"], ["Y", "X"], "D", "18-25") hperm dbTwoCats_cust
  exact ⟨hperm, h.1, h.2⟩

end Zepto
